import Mathlib

/-!
Verification of the SLIP framing engine of `src/slip.js`.

Bytes are modelled as `Nat` values (all concrete byte values in the source
are < 256 and no arithmetic is performed on them, so no modular reduction
is needed).  Buffers are modelled as `List Nat`.

The stream reassembler `collectDataAndFireMessageEvent_` is translated
from `src/slip.js` lines 87-122.  Its closure state (`temporaryBuffer`,
`writeCursor`) is modelled as the list of meaningful buffer bytes
(`buf`, with `writeCursor = buf.length`); Node's `Buffer.copy` copies at
most the remaining room of the target and returns the number of bytes
actually copied, which `copyTrunc` reproduces.

The escape codec lives in `slip-message.js`, which is not part of the
sources; `encode`, `unescape` and `applyProtocol` are therefore modelled
from the specification (sections 4.1-4.3).
-/

namespace Slip

/-- One escape rule of the protocol definition: the reserved payload byte
`initialFragment` is transmitted as `escapeByte` followed by `replacement`. -/
structure EscapeRule where
  initialFragment : Nat
  replacement : Nat
deriving DecidableEq

/-- The protocol definition object of `src/slip.js` (`defaultProtocolDefinition`
gives the field defaults). -/
structure ProtocolDefinition where
  messageMaxLength : Nat
  endByte : Nat
  escapeByte : Nat
  escapeRules : List EscapeRule
deriving DecidableEq

/-- The default protocol definition of `src/slip.js` lines 13-26. -/
def defaultProtocolDefinition : ProtocolDefinition :=
  { messageMaxLength := 256
    endByte := 192
    escapeByte := 219
    escapeRules := [⟨192, 220⟩, ⟨219, 221⟩] }

/-- Modelled from the spec: the Frame Encoder of `slip-message.js`
(the `SLIPMessage` constructor), section 4.2 — encoding of a single payload
byte: a byte matching some rule's `initialFragment` becomes
`[escapeByte, replacement]`, any other byte passes through unchanged. -/
def encodeByte (proto : ProtocolDefinition) (b : Nat) : List Nat :=
  match proto.escapeRules.find? (fun r => r.initialFragment == b) with
  | some r => [proto.escapeByte, r.replacement]
  | none => [b]

/-- Modelled from the spec: the Frame Encoder of `slip-message.js`, section 4.2 —
byte-by-byte scan of the payload.  The terminator is NOT appended here
(it is appended by the caller, `sendMessage` in `src/slip.js`). -/
def encode (proto : ProtocolDefinition) : List Nat → List Nat
  | [] => []
  | b :: p => encodeByte proto b ++ encode proto p

/-- Modelled from the spec: `SLIPMessage.unescape` of `slip-message.js`,
section 4.3 — on `escapeByte` the next byte must match some rule's
`replacement` (substituted by that rule's `initialFragment`); an
`escapeByte` that ends the frame or is followed by a non-replacement byte
makes the frame malformed (`none`). -/
def unescape (proto : ProtocolDefinition) : List Nat → Option (List Nat)
  | [] => some []
  | b :: rest =>
    if b = proto.escapeByte then
      match rest with
      | [] => none
      | c :: rest2 =>
        match proto.escapeRules.find? (fun r => r.replacement == c) with
        | some r => (unescape proto rest2).map (fun m => r.initialFragment :: m)
        | none => none
    else
      (unescape proto rest).map (fun m => b :: m)

/-- An escape rule as supplied by the user, possibly with missing fields
(a plain JS object may omit either key). -/
structure EscapeRuleOpt where
  initialFragment : Option Nat
  replacement : Option Nat
deriving DecidableEq

/-- A user-supplied partial protocol definition (the `protocol` constructor
argument of `src/slip.js`); `none` marks an unset field, filled from
`defaultProtocolDefinition` by lodash `_.defaults`. -/
structure ProtocolOpt where
  messageMaxLength : Option Nat
  endByte : Option Nat
  escapeByte : Option Nat
  escapeRules : Option (List EscapeRuleOpt)
deriving DecidableEq

/-- The default escape rules in user-supplied (fully present) form. -/
def defaultRulesOpt : List EscapeRuleOpt :=
  [⟨some 192, some 220⟩, ⟨some 219, some 221⟩]

/-- Modelled from the spec: the completeness part of protocol validation
(section 4.1) — every `escapeRules` entry must carry both required fields. -/
def validateRules : List EscapeRuleOpt → Option (List EscapeRule)
  | [] => some []
  | r :: rs =>
    match r.initialFragment, r.replacement, validateRules rs with
    | some i, some rep, some rest => some (⟨i, rep⟩ :: rest)
    | _, _, _ => none

/-- Modelled from the spec: `SLIPMessage.applyProtocol` of `slip-message.js`
together with the `_.defaults` call of the `SLIP` constructor
(`src/slip.js` lines 39-41), section 4.1 — fill unset fields from the
defaults, then fail (`none`, the `ConfigError` outcome) when an
`escapeRules` entry misses a required field or the same byte value is used
for two distinct roles; otherwise return the validated definition.
"Two distinct roles" is read as `endByte` against `escapeByte` and one
rule's `initialFragment` against another's: the rule set must cover the
terminator byte and the escape byte themselves (section 4.2), so the
`initialFragment`s deliberately repeat those two byte values and cannot be
required to differ from them — the documented default protocol would
otherwise be rejected by its own validation. -/
def applyProtocol (p : ProtocolOpt) : Option ProtocolDefinition :=
  let endB := p.endByte.getD defaultProtocolDefinition.endByte
  let escB := p.escapeByte.getD defaultProtocolDefinition.escapeByte
  match validateRules (p.escapeRules.getD defaultRulesOpt) with
  | none => none
  | some rules =>
    if endB ≠ escB ∧ (rules.map (fun r => r.initialFragment)).Nodup then
      some
        { messageMaxLength :=
            p.messageMaxLength.getD defaultProtocolDefinition.messageMaxLength
          endByte := endB
          escapeByte := escB
          escapeRules := rules }
    else
      none

/-- The capacity of the reassembler's temporary buffer:
`new Buffer.allocUnsafe(1024 * 10)` in `src/slip.js` line 88. -/
def capacity : Nat := 1024 * 10

/-- `data.copy(temporaryBuffer, writeCursor)` in `src/slip.js`: Node's
`Buffer.copy` writes at most the remaining room of the target
(`capacity - writeCursor` bytes) and drops the rest; the write cursor
advances by the number of bytes actually copied.  With the buffer modelled
as its meaningful prefix, the copy appends a truncated source. -/
def copyTrunc (buf data : List Nat) : List Nat :=
  buf ++ data.take (capacity - buf.length)

/-- `data.indexOf(this.endByte_)` in `src/slip.js` line 92: index of the
first occurrence of the byte `t`, `none` for the source's `-1`. -/
def bufIndexOf (t : Nat) : List Nat → Option Nat
  | [] => none
  | b :: rest => if b = t then some 0 else (bufIndexOf t rest).map (· + 1)

/-- The stream reassembler of `src/slip.js` lines 87-122
(`collectDataAndFireMessageEvent_`).  State is the meaningful prefix of
`temporaryBuffer` (so `writeCursor = buf.length`); the result is the new
state together with the list of payloads fired as `message` events by this
call, in emission order.  The `do … while` loop with
`data = data.slice(endIndex + 1)` is the recursive call on
`data.drop (e + 1)`. -/
def collectDataAndFireMessageEvent_ (proto : ProtocolDefinition)
    (buf data : List Nat) : List Nat × List (List Nat) :=
  match bufIndexOf proto.endByte data with
  | none =>
    -- chunk has no endByte, pushing it to temporary buffer
    (copyTrunc buf data, [])
  | some e =>
    -- chunk has data before endByte
    let buf1 := if 0 < e then copyTrunc buf (data.take e) else buf
    -- copy data from temporary buffer to a new buffer and fire message
    let msgs : List (List Nat) :=
      if 0 < buf1.length then
        match unescape proto buf1 with
        | some m => [m]
        | none => []
      else []
    if _h2 : e < data.length - 1 then
      -- has data after endByte
      let rest := collectDataAndFireMessageEvent_ proto [] (data.drop (e + 1))
      (rest.1, msgs ++ rest.2)
    else
      ([], msgs)
termination_by data.length
decreasing_by
  simp only [List.length_drop]
  omega

/-- A whole session of `data` events against one reassembler state:
`feed` every chunk in order, starting from the given state, collecting all
emitted messages. -/
def feedAll (proto : ProtocolDefinition) (buf : List Nat) :
    List (List Nat) → List Nat × List (List Nat)
  | [] => (buf, [])
  | c :: cs =>
    let s1 := collectDataAndFireMessageEvent_ proto buf c
    let s2 := feedAll proto s1.1 cs
    (s2.1, s1.2 ++ s2.2)

/-- Two `SLIP` instances as built by `src/slip.js`.  The prototype method
`collectDataAndFireMessageEvent_` is produced by an IIFE that runs once at
module load, so `temporaryBuffer` and `writeCursor` live in one closure
shared by every instance; only the emitted `message` events are
per-instance. -/
structure TwoSlip where
  sharedBuf : List Nat
  msgs1 : List (List Nat)
  msgs2 : List (List Nat)
deriving DecidableEq

/-- The fresh state: empty shared buffer, no messages fired yet. -/
def initialTwoSlip : TwoSlip := ⟨[], [], []⟩

/-- A `data` event on the first instance: the shared closure state is
read and written, messages are fired on instance 1. -/
def feedSlip1 (proto : ProtocolDefinition) (s : TwoSlip) (chunk : List Nat) :
    TwoSlip :=
  let r := collectDataAndFireMessageEvent_ proto s.sharedBuf chunk
  { s with sharedBuf := r.1, msgs1 := s.msgs1 ++ r.2 }

/-- A `data` event on the second instance: the same shared closure state is
read and written, messages are fired on instance 2. -/
def feedSlip2 (proto : ProtocolDefinition) (s : TwoSlip) (chunk : List Nat) :
    TwoSlip :=
  let r := collectDataAndFireMessageEvent_ proto s.sharedBuf chunk
  { s with sharedBuf := r.1, msgs2 := s.msgs2 ++ r.2 }

end Slip

namespace Slip

/-! ### Basic facts about the copy and search primitives -/

lemma copyTrunc_nil (buf : List Nat) : copyTrunc buf [] = buf := by
  simp [copyTrunc]

lemma copyTrunc_append (buf a b : List Nat) :
    copyTrunc (copyTrunc buf a) b = copyTrunc buf (a ++ b) := by
  simp only [copyTrunc, List.take_append_eq_append_take, List.append_assoc,
    List.length_append, List.length_take]
  have h : capacity - (buf.length + min (capacity - buf.length) a.length)
      = capacity - buf.length - a.length := by
    simp only [capacity]
    omega
  rw [h]

lemma copyTrunc_of_le {buf a : List Nat} (h : buf.length + a.length ≤ capacity) :
    copyTrunc buf a = buf ++ a := by
  unfold copyTrunc
  rw [List.take_of_length_le (by omega)]

lemma length_copyTrunc_le {buf : List Nat} (a : List Nat)
    (h : buf.length ≤ capacity) : (copyTrunc buf a).length ≤ capacity := by
  simp only [copyTrunc, List.length_append, List.length_take]
  omega

lemma bufIndexOf_eq_none {t : Nat} :
    ∀ {l : List Nat}, bufIndexOf t l = none ↔ t ∉ l := by
  intro l
  induction l with
  | nil => simp [bufIndexOf]
  | cons b rest ih =>
    by_cases hb : b = t
    · simp [bufIndexOf, hb]
    · simp only [bufIndexOf, if_neg hb, Option.map_eq_none', ih, List.mem_cons]
      constructor
      · intro h hc
        rcases hc with hc | hc
        · exact hb hc.symm
        · exact h hc
      · intro h hc
        exact h (Or.inr hc)

lemma bufIndexOf_append_of_some {t : Nat} :
    ∀ {a : List Nat} {e : Nat} (b : List Nat), bufIndexOf t a = some e →
      bufIndexOf t (a ++ b) = some e := by
  intro a
  induction a with
  | nil => intro e b h; simp [bufIndexOf] at h
  | cons x rest ih =>
    intro e b h
    by_cases hx : x = t
    · simp only [bufIndexOf, if_pos hx, Option.some.injEq] at h
      simp [bufIndexOf, hx, h]
    · simp only [bufIndexOf, if_neg hx, Option.map_eq_some'] at h
      obtain ⟨e', he', rfl⟩ := h
      simp [bufIndexOf, if_neg hx, ih b he']

lemma bufIndexOf_append_of_none {t : Nat} :
    ∀ {a : List Nat} (b : List Nat), bufIndexOf t a = none →
      bufIndexOf t (a ++ b) = (bufIndexOf t b).map (· + a.length) := by
  intro a
  induction a with
  | nil =>
    intro b _
    cases hb : bufIndexOf t b <;> simp [bufIndexOf, hb]
  | cons x rest ih =>
    intro b h
    by_cases hx : x = t
    · simp [bufIndexOf, if_pos hx] at h
    · simp only [bufIndexOf, if_neg hx, Option.map_eq_none'] at h
      have hr := ih b h
      simp only [List.cons_append, bufIndexOf, if_neg hx, List.append_eq, hr]
      cases hb : bufIndexOf t b with
      | none => simp [hb]
      | some e2 =>
        simp only [hb, Option.map_some', Option.some.injEq, List.length_cons]
        omega

lemma bufIndexOf_some {t : Nat} :
    ∀ {l : List Nat} {e : Nat}, bufIndexOf t l = some e →
      e < l.length ∧ l.drop e = t :: l.drop (e + 1) ∧ t ∉ l.take e := by
  intro l
  induction l with
  | nil => intro e h; simp [bufIndexOf] at h
  | cons b rest ih =>
    intro e h
    by_cases hb : b = t
    · simp only [bufIndexOf, if_pos hb, Option.some.injEq] at h
      subst h
      simp [hb]
    · simp only [bufIndexOf, if_neg hb, Option.map_eq_some'] at h
      obtain ⟨e', he', rfl⟩ := h
      obtain ⟨h1, h2, h3⟩ := ih he'
      refine ⟨by simpa using h1, ?_, ?_⟩
      · simpa using h2
      · simp only [List.take_succ_cons, List.mem_cons, not_or]
        exact ⟨fun hc => hb hc.symm, h3⟩

end Slip

namespace Slip

/-! ### Unfolding lemmas for the reassembler -/

/-- The messages fired by one loop iteration whose accumulated frame is
`frame` (`src/slip.js` lines 103-112): a non-empty frame is unescaped and
fired when valid; an empty or malformed frame fires nothing. -/
def firedFrom (proto : ProtocolDefinition) (frame : List Nat) : List (List Nat) :=
  if 0 < frame.length then
    match unescape proto frame with
    | some m => [m]
    | none => []
  else []

lemma collect_not_found (proto : ProtocolDefinition) {buf data : List Nat}
    (h : bufIndexOf proto.endByte data = none) :
    collectDataAndFireMessageEvent_ proto buf data = (copyTrunc buf data, []) := by
  rw [collectDataAndFireMessageEvent_, h]

lemma collect_found_last (proto : ProtocolDefinition) {buf data : List Nat}
    {e : Nat} (h : bufIndexOf proto.endByte data = some e)
    (hlast : ¬ e < data.length - 1) :
    collectDataAndFireMessageEvent_ proto buf data =
      ([], firedFrom proto (if 0 < e then copyTrunc buf (data.take e) else buf)) := by
  rw [collectDataAndFireMessageEvent_, h]
  simp only [dif_neg hlast, firedFrom]

lemma collect_found_cont (proto : ProtocolDefinition) {buf data : List Nat}
    {e : Nat} (h : bufIndexOf proto.endByte data = some e)
    (hcont : e < data.length - 1) :
    collectDataAndFireMessageEvent_ proto buf data =
      ((collectDataAndFireMessageEvent_ proto [] (data.drop (e + 1))).1,
       firedFrom proto (if 0 < e then copyTrunc buf (data.take e) else buf) ++
         (collectDataAndFireMessageEvent_ proto [] (data.drop (e + 1))).2) := by
  rw [collectDataAndFireMessageEvent_, h]
  simp only [dif_pos hcont, firedFrom]

end Slip

namespace Slip

lemma collect_nil (proto : ProtocolDefinition) (buf : List Nat) :
    collectDataAndFireMessageEvent_ proto buf [] = (buf, []) := by
  rw [collect_not_found proto (by rfl), copyTrunc_nil]

/-- Splitting the incoming byte stream at any point does not change the
reassembler's behaviour: one `data` event carrying `a ++ b` ends in the
same state and fires the same messages as the event `a` followed by the
event `b`. -/
lemma collect_append (proto : ProtocolDefinition) (a buf b : List Nat) :
    collectDataAndFireMessageEvent_ proto buf (a ++ b) =
      ((collectDataAndFireMessageEvent_ proto
          (collectDataAndFireMessageEvent_ proto buf a).1 b).1,
       (collectDataAndFireMessageEvent_ proto buf a).2 ++
         (collectDataAndFireMessageEvent_ proto
          (collectDataAndFireMessageEvent_ proto buf a).1 b).2) := by
  have main : ∀ (n : Nat) (a buf b : List Nat), a.length ≤ n →
      collectDataAndFireMessageEvent_ proto buf (a ++ b) =
        ((collectDataAndFireMessageEvent_ proto
            (collectDataAndFireMessageEvent_ proto buf a).1 b).1,
         (collectDataAndFireMessageEvent_ proto buf a).2 ++
           (collectDataAndFireMessageEvent_ proto
            (collectDataAndFireMessageEvent_ proto buf a).1 b).2) := by
    intro n
    induction n with
    | zero =>
      intro a buf b ha
      have : a = [] := List.length_eq_zero.mp (Nat.le_zero.mp ha)
      subst this
      simp [collect_nil]
    | succ n ih =>
      intro a buf b ha
      rcases eq_or_ne a [] with rfl | hne
      · simp [collect_nil]
      have ha0 : 0 < a.length := List.length_pos.mpr hne
      cases hfa : bufIndexOf proto.endByte a with
      | none =>
        have hab := bufIndexOf_append_of_none b hfa
        rw [collect_not_found proto hfa]
        cases hfb : bufIndexOf proto.endByte b with
        | none =>
          rw [hfb] at hab
          simp only [Option.map_none'] at hab
          rw [collect_not_found proto hab, collect_not_found proto hfb,
            copyTrunc_append]
          simp
        | some j =>
          rw [hfb] at hab
          simp only [Option.map_some'] at hab
          obtain ⟨hjb, -, -⟩ := bufIndexOf_some hfb
          have htake : (a ++ b).take (j + a.length) = a ++ b.take j := by
            rw [List.take_append_eq_append_take,
              List.take_of_length_le (by omega)]
            congr 2
            omega
          have hbuf1 :
              (if 0 < j + a.length then
                copyTrunc buf ((a ++ b).take (j + a.length)) else buf)
              = (if 0 < j then
                  copyTrunc (copyTrunc buf a) (b.take j) else copyTrunc buf a) := by
            rw [if_pos (by omega), htake]
            by_cases hj : 0 < j
            · rw [if_pos hj, copyTrunc_append]
            · have : j = 0 := by omega
              subst this
              simp
          by_cases hc : j < b.length - 1
          · have hcL : j + a.length < (a ++ b).length - 1 := by
              simp only [List.length_append]
              omega
            have hdrop : (a ++ b).drop (j + a.length + 1) = b.drop (j + 1) := by
              rw [List.drop_append_eq_append_drop,
                List.drop_eq_nil_of_le (by omega)]
              simp only [List.nil_append]
              congr 1
              omega
            rw [collect_found_cont proto hab hcL, collect_found_cont proto hfb hc,
              hdrop, hbuf1]
            simp
          · have hcL : ¬ j + a.length < (a ++ b).length - 1 := by
              simp only [List.length_append]
              omega
            rw [collect_found_last proto hab hcL, collect_found_last proto hfb hc,
              hbuf1]
            simp
      | some e =>
        have hab := bufIndexOf_append_of_some b hfa
        obtain ⟨hea, -, -⟩ := bufIndexOf_some hfa
        have htake : (a ++ b).take e = a.take e := by
          rw [List.take_append_eq_append_take]
          have : e - a.length = 0 := by omega
          rw [this]
          simp
        have hbuf1 :
            (if 0 < e then copyTrunc buf ((a ++ b).take e) else buf)
            = (if 0 < e then copyTrunc buf (a.take e) else buf) := by
          rw [htake]
        by_cases hc : e < a.length - 1
        · have hcL : e < (a ++ b).length - 1 := by
            simp only [List.length_append]
            omega
          have hdrop : (a ++ b).drop (e + 1) = a.drop (e + 1) ++ b := by
            rw [List.drop_append_eq_append_drop]
            have : e + 1 - a.length = 0 := by omega
            rw [this]
            simp
          have hlen : (a.drop (e + 1)).length ≤ n := by
            simp only [List.length_drop]
            omega
          rw [collect_found_cont proto hab hcL, collect_found_cont proto hfa hc,
            hdrop, hbuf1, ih (a.drop (e + 1)) [] b hlen]
          simp
        · rw [collect_found_last proto hfa hc]
          rcases eq_or_ne b [] with hb0 | hb0
          · have hcL : ¬ e < (a ++ b).length - 1 := by
              rw [hb0]
              simp only [List.append_nil, List.length_append, List.length_nil]
              omega
            rw [collect_found_last proto hab hcL, hbuf1, hb0, collect_nil]
            simp
          · have hb0' : 0 < b.length := List.length_pos.mpr hb0
            have hcL : e < (a ++ b).length - 1 := by
              simp only [List.length_append]
              omega
            have heq : e + 1 = a.length := by omega
            have hdrop : (a ++ b).drop (e + 1) = b := by
              rw [List.drop_append_eq_append_drop,
                List.drop_eq_nil_of_le (by omega)]
              simp [heq]
            rw [collect_found_cont proto hab hcL, hdrop, hbuf1]
  exact main a.length a buf b le_rfl

end Slip

namespace Slip

/-! ### The escape codec: round trip and auxiliary facts -/

lemma find?_replacement_of_nodup {rules : List EscapeRule}
    (hrep : (rules.map (fun r => r.replacement)).Nodup) {r : EscapeRule}
    (hr : r ∈ rules) :
    rules.find? (fun r2 => r2.replacement == r.replacement) = some r := by
  induction rules with
  | nil => cases hr
  | cons x rest ih =>
    rcases List.mem_cons.mp hr with rfl | hr2
    · simp [List.find?]
    · have hnd := List.nodup_cons.mp hrep
      have hx : ¬ (x.replacement == r.replacement) = true := by
        intro hEq
        have hxr : x.replacement = r.replacement := by simpa using hEq
        have hmem : r.replacement ∈ rest.map (fun r2 => r2.replacement) :=
          List.mem_map.mpr ⟨r, hr2, rfl⟩
        exact hnd.1 (by simpa [hxr] using hmem)
      have hx2 : (x.replacement == r.replacement) = false := by
        simpa using hx
      rw [List.find?]
      rw [hx2]
      exact ih hnd.2 hr2

lemma unescape_esc_found (proto : ProtocolDefinition) {c : Nat} {r : EscapeRule}
    (hfind : proto.escapeRules.find? (fun r2 => r2.replacement == c) = some r)
    (rest : List Nat) :
    unescape proto (proto.escapeByte :: c :: rest) =
      (unescape proto rest).map (fun m => r.initialFragment :: m) := by
  rw [unescape.eq_def]
  simp [hfind]

lemma unescape_cons_of_ne (proto : ProtocolDefinition) {b : Nat}
    (hb : b ≠ proto.escapeByte) (rest : List Nat) :
    unescape proto (b :: rest) = (unescape proto rest).map (fun m => b :: m) := by
  rw [unescape.eq_def]
  simp [hb]

lemma unescape_encode (proto : ProtocolDefinition)
    (hrep : (proto.escapeRules.map (fun r => r.replacement)).Nodup) :
    ∀ p : List Nat,
      (∀ b ∈ p,
        proto.escapeRules.find? (fun r => r.initialFragment == b) = none →
          b ≠ proto.escapeByte) →
      unescape proto (encode proto p) = some p := by
  intro p
  induction p with
  | nil => intro _; simp [encode, unescape]
  | cons b p ih =>
    intro hp
    have hp' : ∀ x ∈ p,
        proto.escapeRules.find? (fun r => r.initialFragment == x) = none →
          x ≠ proto.escapeByte :=
      fun x hx => hp x (List.mem_cons_of_mem _ hx)
    cases hf : proto.escapeRules.find? (fun r => r.initialFragment == b) with
    | some r =>
      have hrb : r.initialFragment = b := by
        have := List.find?_some hf
        simpa using this
      have hrm : r ∈ proto.escapeRules := List.mem_of_find?_eq_some hf
      simp only [encode, encodeByte, hf, List.cons_append, List.nil_append]
      rw [unescape_esc_found proto (find?_replacement_of_nodup hrep hrm)
        (encode proto p), ih hp']
      simp [hrb]
    | none =>
      have hb : b ≠ proto.escapeByte := hp b (List.mem_cons_self b p) hf
      simp only [encode, encodeByte, hf, List.cons_append, List.nil_append]
      rw [unescape_cons_of_ne proto hb, ih hp']
      simp

lemma unescape_encode_default (p : List Nat) :
    unescape defaultProtocolDefinition (encode defaultProtocolDefinition p) =
      some p := by
  apply unescape_encode
  · decide
  · intro b _ hf hbe
    rw [hbe] at hf
    exact absurd hf (by decide)

lemma encodeByte_default_not_end (b : Nat) :
    (192 : Nat) ∉ encodeByte defaultProtocolDefinition b := by
  by_cases h1 : b = 192
  · subst h1; decide
  by_cases h2 : b = 219
  · subst h2; decide
  have hf : (defaultProtocolDefinition.escapeRules).find?
      (fun r => r.initialFragment == b) = none := by
    rw [List.find?_eq_none]
    intro r hr
    have hcase : r = (⟨192, 220⟩ : EscapeRule) ∨ r = (⟨219, 221⟩ : EscapeRule) := by
      simpa [defaultProtocolDefinition] using hr
    rcases hcase with rfl | rfl
    · simp only [beq_iff_eq]
      exact fun h => h1 h.symm
    · simp only [beq_iff_eq]
      exact fun h => h2 h.symm
  simp only [encodeByte, hf, List.mem_singleton]
  exact fun h => h1 h.symm

lemma encode_default_not_end :
    ∀ (p : List Nat), (192 : Nat) ∉ encode defaultProtocolDefinition p := by
  intro p
  induction p with
  | nil => simp [encode]
  | cons b p ih =>
    simp only [encode, List.mem_append, not_or]
    exact ⟨encodeByte_default_not_end b, ih⟩

lemma encode_ne_nil (proto : ProtocolDefinition) {p : List Nat} (hp : p ≠ []) :
    encode proto p ≠ [] := by
  cases p with
  | nil => exact absurd rfl hp
  | cons b p =>
    cases hf : proto.escapeRules.find? (fun r => r.initialFragment == b) <;>
      simp [encode, encodeByte, hf]

end Slip

namespace Slip

/-! ### Feeding one complete frame, and the cursor bound -/

/-- Feeding one terminated frame into an empty reassembler: the part before
the terminator (truncated at the buffer capacity) is the fired frame, and
the state is reset. -/
lemma collect_frame (proto : ProtocolDefinition) {frame : List Nat}
    (h : proto.endByte ∉ frame) :
    collectDataAndFireMessageEvent_ proto [] (frame ++ [proto.endByte]) =
      ([], firedFrom proto (frame.take capacity)) := by
  have hfa : bufIndexOf proto.endByte frame = none := bufIndexOf_eq_none.mpr h
  have hab := bufIndexOf_append_of_none [proto.endByte] hfa
  have hone : bufIndexOf proto.endByte [proto.endByte] = some 0 := by
    simp [bufIndexOf]
  rw [hone] at hab
  simp only [Option.map_some', Nat.zero_add] at hab
  have hlast : ¬ frame.length < (frame ++ [proto.endByte]).length - 1 := by
    simp [List.length_append]
  rw [collect_found_last proto hab hlast]
  rcases Nat.eq_zero_or_pos frame.length with h0 | h0
  · have : frame = [] := List.length_eq_zero.mp h0
    subst this
    simp
  · rw [if_pos h0]
    have : (frame ++ [proto.endByte]).take frame.length = frame := List.take_left ..
    rw [this]
    simp [copyTrunc]

/-- Feeding one terminated frame that fits in the buffer: the frame itself
is what gets unescaped. -/
lemma collect_frame_of_le (proto : ProtocolDefinition) {frame : List Nat}
    (h : proto.endByte ∉ frame) (hlen : frame.length ≤ capacity) :
    collectDataAndFireMessageEvent_ proto [] (frame ++ [proto.endByte]) =
      ([], firedFrom proto frame) := by
  rw [collect_frame proto h, List.take_of_length_le hlen]

/-- One `data` event never grows the meaningful buffer past the 10 KiB
capacity. -/
lemma collect_length_le (proto : ProtocolDefinition) :
    ∀ (n : Nat) (buf data : List Nat), data.length ≤ n →
      buf.length ≤ capacity →
      (collectDataAndFireMessageEvent_ proto buf data).1.length ≤ capacity := by
  intro n
  induction n with
  | zero =>
    intro buf data hd hb
    have : data = [] := List.length_eq_zero.mp (Nat.le_zero.mp hd)
    subst this
    rw [collect_nil]
    exact hb
  | succ n ih =>
    intro buf data hd hb
    cases hf : bufIndexOf proto.endByte data with
    | none =>
      rw [collect_not_found proto hf]
      exact length_copyTrunc_le data hb
    | some e =>
      by_cases hc : e < data.length - 1
      · rw [collect_found_cont proto hf hc]
        refine ih [] (data.drop (e + 1)) ?_ (by simp [capacity])
        simp only [List.length_drop]
        omega
      · rw [collect_found_last proto hf hc]
        simp [capacity]

/-- The cursor bound, stated for the state reached from any start. -/
lemma collect_length_le' (proto : ProtocolDefinition) (buf data : List Nat)
    (hb : buf.length ≤ capacity) :
    (collectDataAndFireMessageEvent_ proto buf data).1.length ≤ capacity :=
  collect_length_le proto data.length buf data le_rfl hb

lemma feedAll_length_le (proto : ProtocolDefinition) :
    ∀ (chunks : List (List Nat)) (buf : List Nat), buf.length ≤ capacity →
      (feedAll proto buf chunks).1.length ≤ capacity := by
  intro chunks
  induction chunks with
  | nil => intro buf hb; exact hb
  | cons c cs ih =>
    intro buf hb
    simp only [feedAll]
    exact ih _ (collect_length_le' proto buf c hb)

/-! ### Concrete shapes used by the oversized-chunk analyses -/

lemma bufIndexOf_replicate {t a : Nat} (h : a ≠ t) :
    ∀ (n : Nat), bufIndexOf t (List.replicate n a) = none := by
  intro n
  induction n with
  | zero => rfl
  | succ n ih => simp [List.replicate_succ, bufIndexOf, h, ih]

lemma encode_default_replicate_one :
    ∀ (n : Nat), encode defaultProtocolDefinition (List.replicate n 1) =
      List.replicate n 1 := by
  intro n
  induction n with
  | zero => rfl
  | succ n ih =>
    rw [List.replicate_succ]
    simp only [encode, ih]
    rfl

end Slip

namespace Slip

/-! ### Validation of the protocol configuration -/

lemma validateRules_isSome :
    ∀ (rs : List EscapeRuleOpt), (validateRules rs).isSome ↔
      ∀ r ∈ rs, r.initialFragment.isSome ∧ r.replacement.isSome := by
  intro rs
  induction rs with
  | nil => simp [validateRules]
  | cons r rs ih =>
    cases hi : r.initialFragment <;> cases hrep : r.replacement <;>
      cases hv : validateRules rs <;>
        simp [validateRules, hi, hrep, hv, List.forall_mem_cons, ← ih]

lemma validateRules_some_frag :
    ∀ {rs : List EscapeRuleOpt} {rules : List EscapeRule},
      validateRules rs = some rules →
      rules.map (fun r => r.initialFragment) =
        rs.filterMap (fun r => r.initialFragment) := by
  intro rs
  induction rs with
  | nil =>
    intro rules h
    simp only [validateRules, Option.some.injEq] at h
    subst h
    simp
  | cons r rs ih =>
    intro rules h
    cases hi : r.initialFragment with
    | none => simp [validateRules, hi] at h
    | some i =>
      cases hrep : r.replacement with
      | none => simp [validateRules, hi, hrep] at h
      | some rep =>
        cases hv : validateRules rs with
        | none => simp [validateRules, hi, hrep, hv] at h
        | some rest =>
          simp only [validateRules, hi, hrep, hv, Option.some.injEq] at h
          subst h
          simp [List.filterMap_cons, hi, ih hv]

/-! ### Message accounting -/

lemma firedFrom_length_le (proto : ProtocolDefinition) (frame : List Nat) :
    (firedFrom proto frame).length ≤ 1 := by
  rw [firedFrom]
  split
  · cases unescape proto frame <;> simp
  · simp

lemma collect_msgs_le_count (proto : ProtocolDefinition) :
    ∀ (n : Nat) (buf data : List Nat), data.length ≤ n →
      (collectDataAndFireMessageEvent_ proto buf data).2.length ≤
        data.count proto.endByte := by
  intro n
  induction n with
  | zero =>
    intro buf data hd
    have : data = [] := List.length_eq_zero.mp (Nat.le_zero.mp hd)
    subst this
    rw [collect_nil]
    simp
  | succ n ih =>
    intro buf data hd
    cases hf : bufIndexOf proto.endByte data with
    | none =>
      rw [collect_not_found proto hf]
      simp
    | some e =>
      obtain ⟨he, hdrop, -⟩ := bufIndexOf_some hf
      have hcount : (data.take e).count proto.endByte + 1 +
          (data.drop (e + 1)).count proto.endByte = data.count proto.endByte := by
        conv_rhs => rw [← List.take_append_drop e data]
        rw [List.count_append, hdrop, List.count_cons]
        simp
        omega
      by_cases hc : e < data.length - 1
      · rw [collect_found_cont proto hf hc]
        have h1 := firedFrom_length_le proto
          (if 0 < e then copyTrunc buf (data.take e) else buf)
        have h2 := ih [] (data.drop (e + 1)) (by simp [List.length_drop]; omega)
        simp only [List.length_append]
        omega
      · rw [collect_found_last proto hf hc]
        have h1 := firedFrom_length_le proto
          (if 0 < e then copyTrunc buf (data.take e) else buf)
        dsimp only
        omega

/-! ### The cursor reset on a terminator -/

lemma collect_state_end (proto : ProtocolDefinition) :
    ∀ (n : Nat) (buf c : List Nat), c.length ≤ n →
      (collectDataAndFireMessageEvent_ proto buf (c ++ [proto.endByte])).1 = [] := by
  intro n
  induction n with
  | zero =>
    intro buf c hc
    have : c = [] := List.length_eq_zero.mp (Nat.le_zero.mp hc)
    subst this
    have hab : bufIndexOf proto.endByte ([] ++ [proto.endByte]) = some 0 := by
      simp [bufIndexOf]
    have hlast : ¬ (0 : Nat) < ([] ++ [proto.endByte] : List Nat).length - 1 := by
      simp
    rw [collect_found_last proto hab hlast]
  | succ n ih =>
    intro buf c hc
    cases hfc : bufIndexOf proto.endByte c with
    | none =>
      have hab := bufIndexOf_append_of_none [proto.endByte] hfc
      have hone : bufIndexOf proto.endByte [proto.endByte] = some 0 := by
        simp [bufIndexOf]
      rw [hone] at hab
      simp only [Option.map_some', Nat.zero_add] at hab
      have hlast : ¬ c.length < (c ++ [proto.endByte]).length - 1 := by
        simp [List.length_append]
      rw [collect_found_last proto hab hlast]
    | some e =>
      have hab := bufIndexOf_append_of_some [proto.endByte] hfc
      obtain ⟨he, -, -⟩ := bufIndexOf_some hfc
      have hcL : e < (c ++ [proto.endByte]).length - 1 := by
        simp only [List.length_append, List.length_cons, List.length_nil]
        omega
      have hdrop : (c ++ [proto.endByte]).drop (e + 1) =
          c.drop (e + 1) ++ [proto.endByte] := by
        rw [List.drop_append_eq_append_drop]
        have : e + 1 - c.length = 0 := by omega
        rw [this]
        simp
      rw [collect_found_cont proto hab hcL, hdrop]
      exact ih [] (c.drop (e + 1)) (by simp only [List.length_drop]; omega)

end Slip

namespace Slip

/-! ## The claims -/

/-- C1: for every valid encoded-frame-plus-terminator byte sequence
`encode p ++ [endByte]` and every split point `i` in it, feeding the two
pieces to the stream reassembler in two separate `data` events fires the
identical sequence of messages as feeding the whole sequence in one event. -/
theorem claim_C1_chunk_boundary_independence
    (proto : ProtocolDefinition) (p : List Nat) (i : Nat) :
    (collectDataAndFireMessageEvent_ proto []
        (encode proto p ++ [proto.endByte])).2 =
      (collectDataAndFireMessageEvent_ proto []
          ((encode proto p ++ [proto.endByte]).take i)).2 ++
        (collectDataAndFireMessageEvent_ proto
          (collectDataAndFireMessageEvent_ proto []
            ((encode proto p ++ [proto.endByte]).take i)).1
          ((encode proto p ++ [proto.endByte]).drop i)).2 := by
  conv_lhs =>
    rw [← List.take_append_drop i (encode proto p ++ [proto.endByte]),
      collect_append]

/-- C2 counterexample: the claim quantifies over all payloads, but an empty
payload `m1 = []` yields an empty frame that is suppressed (only `[m2]` is
fired), and a payload of 10241 bytes overflows the 10 KiB buffer, so its
message is truncated to 10240 bytes. -/
theorem claim_C2_counterexample :
    (collectDataAndFireMessageEvent_ defaultProtocolDefinition []
        (encode defaultProtocolDefinition [] ++ [192] ++
          encode defaultProtocolDefinition [2] ++ [192])).2 ≠ [[], [2]] ∧
    (collectDataAndFireMessageEvent_ defaultProtocolDefinition []
        (encode defaultProtocolDefinition (List.replicate 10241 1) ++ [192] ++
          encode defaultProtocolDefinition [2] ++ [192])).2 ≠
      [List.replicate 10241 1, [2]] := by
  constructor
  · have hw : encode defaultProtocolDefinition [] ++ [192] ++
        encode defaultProtocolDefinition [2] ++ [192] =
        ([] ++ [defaultProtocolDefinition.endByte]) ++
          ([2] ++ [defaultProtocolDefinition.endByte]) := rfl
    rw [hw, collect_append,
      collect_frame_of_le defaultProtocolDefinition
        (show defaultProtocolDefinition.endByte ∉ ([] : List Nat) by decide)
        (by decide)]
    dsimp only
    rw [collect_frame_of_le defaultProtocolDefinition
      (show defaultProtocolDefinition.endByte ∉ [2] by decide) (by decide)]
    decide
  · have hw : encode defaultProtocolDefinition (List.replicate 10241 1) ++ [192] ++
        encode defaultProtocolDefinition [2] ++ [192] =
        (List.replicate 10241 1 ++ [defaultProtocolDefinition.endByte]) ++
          ([2] ++ [defaultProtocolDefinition.endByte]) := by
      rw [encode_default_replicate_one]
      simp only [defaultProtocolDefinition, List.append_assoc]
      rfl
    rw [hw, collect_append]
    have hnotin : defaultProtocolDefinition.endByte ∉ List.replicate 10241 (1 : Nat) := by
      simp only [List.mem_replicate]
      decide
    have hf1 := collect_frame defaultProtocolDefinition hnotin
    have hmin : min capacity 10241 = 10240 := by
      norm_num [capacity]
    have htk : (List.replicate 10241 (1 : Nat)).take capacity =
        List.replicate 10240 1 := by
      rw [List.take_replicate, hmin]
    rw [htk] at hf1
    have hu : unescape defaultProtocolDefinition (List.replicate 10240 1) =
        some (List.replicate 10240 1) := by
      conv_lhs => rw [← encode_default_replicate_one 10240]
      exact unescape_encode_default _
    have hpos : 0 < (List.replicate 10240 (1 : Nat)).length := by
      rw [List.length_replicate]
      decide
    have hfired : firedFrom defaultProtocolDefinition (List.replicate 10240 1) =
        [List.replicate 10240 1] := by
      simp only [firedFrom, hu]
      rw [if_pos hpos]
    rw [hfired] at hf1
    have hf2 := collect_frame_of_le defaultProtocolDefinition
      (show defaultProtocolDefinition.endByte ∉ [2] by decide)
      (show ([2] : List Nat).length ≤ capacity by decide)
    have hfired2 : firedFrom defaultProtocolDefinition [2] = [[2]] := by decide
    rw [hfired2] at hf2
    rw [hf1]
    dsimp only
    rw [hf2]
    dsimp only
    intro hEq
    simp only [List.cons_append, List.nil_append, List.cons.injEq] at hEq
    have hlen := congrArg List.length hEq.1
    rw [List.length_replicate, List.length_replicate] at hlen
    exact absurd hlen (by decide)

/-- C2 (amended): for all non-empty payloads `m1`, `m2` whose encodings fit
in the 10 KiB accumulation buffer, feeding
`encode m1 ++ terminator ++ encode m2 ++ terminator` in one `data` event
fires exactly the two messages `m1` then `m2`, in that order. -/
theorem claim_C2_multi_frame_per_chunk (m1 m2 : List Nat)
    (h1 : m1 ≠ []) (h2 : m2 ≠ [])
    (hl1 : (encode defaultProtocolDefinition m1).length ≤ capacity)
    (hl2 : (encode defaultProtocolDefinition m2).length ≤ capacity) :
    collectDataAndFireMessageEvent_ defaultProtocolDefinition []
      (encode defaultProtocolDefinition m1 ++ [192] ++
        encode defaultProtocolDefinition m2 ++ [192]) = ([], [m1, m2]) := by
  have hw : encode defaultProtocolDefinition m1 ++ [192] ++
      encode defaultProtocolDefinition m2 ++ [192] =
      (encode defaultProtocolDefinition m1 ++ [defaultProtocolDefinition.endByte]) ++
        (encode defaultProtocolDefinition m2 ++ [defaultProtocolDefinition.endByte]) := by
    simp [defaultProtocolDefinition]
  rw [hw, collect_append]
  have hfired1 : firedFrom defaultProtocolDefinition
      (encode defaultProtocolDefinition m1) = [m1] := by
    simp only [firedFrom, unescape_encode_default]
    rw [if_pos (List.length_pos.mpr (encode_ne_nil _ h1))]
  have hfired2 : firedFrom defaultProtocolDefinition
      (encode defaultProtocolDefinition m2) = [m2] := by
    simp only [firedFrom, unescape_encode_default]
    rw [if_pos (List.length_pos.mpr (encode_ne_nil _ h2))]
  rw [collect_frame_of_le defaultProtocolDefinition (encode_default_not_end m1) hl1,
    hfired1]
  rw [collect_frame_of_le defaultProtocolDefinition (encode_default_not_end m2) hl2,
    hfired2]
  rfl

/-- C2 witness: the amended multi-frame claim at the concrete payloads
`[1]` and `[2]`. -/
theorem claim_C2_multi_frame_per_chunk_witness :
    collectDataAndFireMessageEvent_ defaultProtocolDefinition []
      (encode defaultProtocolDefinition [1] ++ [192] ++
        encode defaultProtocolDefinition [2] ++ [192]) = ([], [[1], [2]]) :=
  claim_C2_multi_frame_per_chunk [1] [2] (by decide) (by decide)
    (by decide) (by decide)

end Slip

namespace Slip

/-- C3: for every payload containing neither the terminator byte nor the
escape byte, decoding the encoding of the payload under the same protocol
definition (whose escape replacements are pairwise distinct, as in the
default protocol) yields the payload back. -/
theorem claim_C3_roundtrip (proto : ProtocolDefinition)
    (hrep : (proto.escapeRules.map (fun r => r.replacement)).Nodup)
    (p : List Nat) (hp : ∀ b ∈ p, b ≠ proto.endByte ∧ b ≠ proto.escapeByte) :
    unescape proto (encode proto p) = some p :=
  unescape_encode proto hrep p (fun b hb _ => (hp b hb).2)

/-- C3 witness: the round trip at the default protocol on `[1, 2, 3]`. -/
theorem claim_C3_roundtrip_witness :
    unescape defaultProtocolDefinition
      (encode defaultProtocolDefinition [1, 2, 3]) = some [1, 2, 3] :=
  claim_C3_roundtrip defaultProtocolDefinition (by decide) [1, 2, 3] (by decide)

/-- C4: two consecutive terminator bytes with no payload between them fire
zero messages, and the write cursor is reset to 0 by any chunk ending in a
terminator, whether or not a message was fired. -/
theorem claim_C4_empty_frame_suppression :
    collectDataAndFireMessageEvent_ defaultProtocolDefinition [] [192, 192] =
      ([], []) ∧
    ∀ (proto : ProtocolDefinition) (buf c : List Nat),
      (collectDataAndFireMessageEvent_ proto buf (c ++ [proto.endByte])).1 = [] := by
  constructor
  · have hw : ([192, 192] : List Nat) =
        ([] ++ [defaultProtocolDefinition.endByte]) ++
          ([] ++ [defaultProtocolDefinition.endByte]) := rfl
    rw [hw, collect_append,
      collect_frame_of_le defaultProtocolDefinition
        (show defaultProtocolDefinition.endByte ∉ ([] : List Nat) by decide)
        (by decide)]
    dsimp only
    rw [collect_frame_of_le defaultProtocolDefinition
      (show defaultProtocolDefinition.endByte ∉ ([] : List Nat) by decide)
      (by decide)]
    decide
  · intro proto buf c
    exact collect_state_end proto c.length buf c le_rfl

/-- C5: the malformed frame `[escapeByte, terminator]` fires zero messages,
and a subsequently fed valid frame (non-empty, fitting the buffer) is still
decoded and fired correctly from the state the malformed frame left behind. -/
theorem claim_C5_malformed_escape_drop :
    collectDataAndFireMessageEvent_ defaultProtocolDefinition [] [219, 192] =
      ([], []) ∧
    ∀ (p : List Nat), p ≠ [] →
      (encode defaultProtocolDefinition p).length ≤ capacity →
      collectDataAndFireMessageEvent_ defaultProtocolDefinition
        (collectDataAndFireMessageEvent_ defaultProtocolDefinition [] [219, 192]).1
        (encode defaultProtocolDefinition p ++ [192]) = ([], [p]) := by
  have hmal : collectDataAndFireMessageEvent_ defaultProtocolDefinition []
      [219, 192] = ([], []) := by
    have hw : ([219, 192] : List Nat) =
        [219] ++ [defaultProtocolDefinition.endByte] := rfl
    rw [hw, collect_frame_of_le defaultProtocolDefinition
      (show defaultProtocolDefinition.endByte ∉ [219] by decide) (by decide)]
    decide
  refine ⟨hmal, ?_⟩
  intro p hp hl
  rw [hmal]
  dsimp only
  have hw : encode defaultProtocolDefinition p ++ [192] =
      encode defaultProtocolDefinition p ++ [defaultProtocolDefinition.endByte] := rfl
  rw [hw, collect_frame_of_le defaultProtocolDefinition
    (encode_default_not_end p) hl]
  have hfired : firedFrom defaultProtocolDefinition
      (encode defaultProtocolDefinition p) = [p] := by
    simp only [firedFrom, unescape_encode_default]
    rw [if_pos (List.length_pos.mpr (encode_ne_nil _ hp))]
  rw [hfired]

/-- C5 witness: the malformed drop followed by the valid frame `[7]`. -/
theorem claim_C5_malformed_escape_drop_witness :
    collectDataAndFireMessageEvent_ defaultProtocolDefinition [] [219, 192] =
      ([], []) ∧
    collectDataAndFireMessageEvent_ defaultProtocolDefinition
      (collectDataAndFireMessageEvent_ defaultProtocolDefinition [] [219, 192]).1
      (encode defaultProtocolDefinition [7] ++ [192]) = ([], [[7]]) :=
  ⟨claim_C5_malformed_escape_drop.1,
   claim_C5_malformed_escape_drop.2 [7] (by decide) (by decide)⟩

/-- C6 counterexample: a terminator-free chunk of 10241 bytes fed to an
empty reassembler is NOT appended whole — the copy truncates at the 10240
byte capacity, so the cursor does not advance by the chunk's length. -/
theorem claim_C6_counterexample :
    ¬ ((collectDataAndFireMessageEvent_ defaultProtocolDefinition []
          (List.replicate 10241 5)).1 = List.replicate 10241 5 ∧
        (collectDataAndFireMessageEvent_ defaultProtocolDefinition []
          (List.replicate 10241 5)).2 = []) := by
  rintro ⟨h1, -⟩
  have hf : bufIndexOf defaultProtocolDefinition.endByte
      (List.replicate 10241 5) = none :=
    bufIndexOf_replicate (by decide) 10241
  rw [collect_not_found defaultProtocolDefinition hf] at h1
  have htr : copyTrunc [] (List.replicate 10241 (5 : Nat)) =
      List.replicate 10240 5 := by
    rw [copyTrunc]
    simp only [List.nil_append, List.length_nil, Nat.sub_zero]
    rw [List.take_replicate]
    congr 1
  rw [htr] at h1
  have hlen := congrArg List.length h1
  rw [List.length_replicate, List.length_replicate] at hlen
  exact absurd hlen (by decide)

/-- C6 (amended): a chunk with no terminator byte that fits in the
remaining buffer capacity is appended whole to the accumulation buffer at
the write cursor, the cursor advances by the chunk's length, and no
message is fired; a larger chunk is truncated at capacity. -/
theorem claim_C6_partial_frame_append (proto : ProtocolDefinition)
    (buf chunk : List Nat) (hno : proto.endByte ∉ chunk)
    (hfit : buf.length + chunk.length ≤ capacity) :
    collectDataAndFireMessageEvent_ proto buf chunk = (buf ++ chunk, []) := by
  rw [collect_not_found proto (bufIndexOf_eq_none.mpr hno), copyTrunc_of_le hfit]

/-- C6 witness: the amended partial-frame append at `buf = [1]`,
`chunk = [2, 3]`. -/
theorem claim_C6_partial_frame_append_witness :
    collectDataAndFireMessageEvent_ defaultProtocolDefinition [1] [2, 3] =
      ([1, 2, 3], []) :=
  claim_C6_partial_frame_append defaultProtocolDefinition [1] [2, 3]
    (by decide) (by decide)

end Slip

namespace Slip

/-- C7: the reassembler never fires a message for a frame whose terminator
byte has not yet been received (a terminator-free chunk fires nothing), and
every `data` event fires at most one message per terminator byte it
contains — each fired message corresponds to a received terminator, in
arrival order. -/
theorem claim_C7_message_per_terminator (proto : ProtocolDefinition)
    (buf chunk : List Nat) :
    (proto.endByte ∉ chunk →
      (collectDataAndFireMessageEvent_ proto buf chunk).2 = []) ∧
    (collectDataAndFireMessageEvent_ proto buf chunk).2.length ≤
      chunk.count proto.endByte := by
  constructor
  · intro hno
    rw [collect_not_found proto (bufIndexOf_eq_none.mpr hno)]
  · exact collect_msgs_le_count proto chunk.length buf chunk le_rfl

/-- C7 witness: the accounting at the concrete chunks `[1, 2]` (no
terminator, no message) and `[1, 192]` (one terminator). -/
theorem claim_C7_message_per_terminator_witness :
    (collectDataAndFireMessageEvent_ defaultProtocolDefinition [] [1, 2]).2 = [] ∧
    (collectDataAndFireMessageEvent_ defaultProtocolDefinition []
        [1, 192]).2.length ≤
      ([1, 192] : List Nat).count defaultProtocolDefinition.endByte :=
  ⟨(claim_C7_message_per_terminator defaultProtocolDefinition [] [1, 2]).1
      (by decide),
   (claim_C7_message_per_terminator defaultProtocolDefinition [] [1, 192]).2⟩

/-- C8 counterexample: `temporaryBuffer` and `writeCursor` live in the
closure of the IIFE that builds the prototype method, so every instance
shares them; the messages instance 2 fires on a bare terminator depend on
whether instance 1 fed `[1, 2]` beforehand. -/
theorem claim_C8_counterexample :
    (feedSlip2 defaultProtocolDefinition
        (feedSlip1 defaultProtocolDefinition initialTwoSlip [1, 2])
        [192]).msgs2 ≠
      (feedSlip2 defaultProtocolDefinition initialTwoSlip [192]).msgs2 := by
  have hA : collectDataAndFireMessageEvent_ defaultProtocolDefinition [] [1, 2] =
      ([1, 2], []) := by
    rw [collect_not_found defaultProtocolDefinition (by decide)]
    decide
  have hB : collectDataAndFireMessageEvent_ defaultProtocolDefinition [] [192] =
      ([], []) := by
    rw [collect_found_last defaultProtocolDefinition
      (show bufIndexOf defaultProtocolDefinition.endByte [192] = some 0 by decide)
      (by decide)]
    decide
  have hC : collectDataAndFireMessageEvent_ defaultProtocolDefinition [1, 2]
      [192] = ([], [[1, 2]]) := by
    rw [collect_found_last defaultProtocolDefinition
      (show bufIndexOf defaultProtocolDefinition.endByte [192] = some 0 by decide)
      (by decide)]
    decide
  simp only [feedSlip1, feedSlip2, initialTwoSlip, hA, hB, hC]
  decide

/-- C8 (amended): every instance built from `src/slip.js` shares the single
closure-scoped accumulation buffer and write cursor of the prototype
method: a partial frame fed to instance 1 followed by a bare terminator fed
to instance 2 makes instance 2 fire the message assembled from instance 1's
bytes. -/
theorem claim_C8_shared_closure_buffer (p : List Nat) (hp : p ≠ [])
    (hl : (encode defaultProtocolDefinition p).length ≤ capacity) :
    (feedSlip2 defaultProtocolDefinition
        (feedSlip1 defaultProtocolDefinition initialTwoSlip
          (encode defaultProtocolDefinition p)) [192]).msgs2 = [p] := by
  have h1 : collectDataAndFireMessageEvent_ defaultProtocolDefinition []
      (encode defaultProtocolDefinition p) =
      (encode defaultProtocolDefinition p, []) := by
    rw [collect_not_found defaultProtocolDefinition
      (bufIndexOf_eq_none.mpr (encode_default_not_end p)),
      copyTrunc_of_le (by simpa using hl)]
    rw [List.nil_append]
  have hfired : firedFrom defaultProtocolDefinition
      (encode defaultProtocolDefinition p) = [p] := by
    simp only [firedFrom, unescape_encode_default]
    rw [if_pos (List.length_pos.mpr (encode_ne_nil _ hp))]
  have h2 : collectDataAndFireMessageEvent_ defaultProtocolDefinition
      (encode defaultProtocolDefinition p) [192] = ([], [p]) := by
    rw [collect_found_last defaultProtocolDefinition
      (show bufIndexOf defaultProtocolDefinition.endByte [192] = some 0 by decide)
      (by decide), if_neg (by decide), hfired]
  simp only [feedSlip1, feedSlip2, initialTwoSlip, h1, h2]
  rfl

/-- C8 witness: the shared-buffer leak at the concrete payload `[1, 2]`. -/
theorem claim_C8_shared_closure_buffer_witness :
    (feedSlip2 defaultProtocolDefinition
        (feedSlip1 defaultProtocolDefinition initialTwoSlip
          (encode defaultProtocolDefinition [1, 2])) [192]).msgs2 = [[1, 2]] :=
  claim_C8_shared_closure_buffer [1, 2] (by decide) (by decide)

end Slip

namespace Slip

/-- C9: construction succeeds exactly when every `escapeRules` entry
carries both required fields and no byte value serves two distinct roles
(the default-filled `endByte` against the `escapeByte`, and one rule's
`initialFragment` against another's) — otherwise it fails with
`ConfigError` (`none`, no partial construction); on success the unset
fields were filled from the documented defaults 256 / 0xC0 / 0xDB. -/
theorem claim_C9_config_validation (p : ProtocolOpt) :
    ((applyProtocol p).isSome ↔
      (∀ r ∈ p.escapeRules.getD defaultRulesOpt,
        r.initialFragment.isSome ∧ r.replacement.isSome) ∧
      (p.endByte.getD 192 : Nat) ≠ (p.escapeByte.getD 219 : Nat) ∧
      ((p.escapeRules.getD defaultRulesOpt).filterMap
        (fun r => r.initialFragment)).Nodup) ∧
    (∀ d, applyProtocol p = some d →
      d.messageMaxLength = p.messageMaxLength.getD 256 ∧
      d.endByte = p.endByte.getD 192 ∧
      d.escapeByte = p.escapeByte.getD 219) := by
  cases hv : validateRules (p.escapeRules.getD defaultRulesOpt) with
  | none =>
    have hnc : ¬ (∀ r ∈ p.escapeRules.getD defaultRulesOpt,
        r.initialFragment.isSome ∧ r.replacement.isSome) := by
      intro hall
      have := (validateRules_isSome (p.escapeRules.getD defaultRulesOpt)).mpr hall
      rw [hv] at this
      simp at this
    constructor
    · simp only [applyProtocol, hv]
      simp [hnc]
    · intro d hd
      simp only [applyProtocol, hv] at hd
      exact absurd hd (by simp)
  | some rules =>
    have hfrag := validateRules_some_frag hv
    have hcomp : ∀ r ∈ p.escapeRules.getD defaultRulesOpt,
        r.initialFragment.isSome ∧ r.replacement.isSome := by
      refine (validateRules_isSome (p.escapeRules.getD defaultRulesOpt)).mp ?_
      rw [hv]
      rfl
    by_cases hnd : (p.endByte.getD defaultProtocolDefinition.endByte : Nat) ≠
        (p.escapeByte.getD defaultProtocolDefinition.escapeByte : Nat) ∧
        (rules.map (fun r => r.initialFragment)).Nodup
    · constructor
      · simp only [applyProtocol, hv, if_pos hnd]
        constructor
        · intro _
          refine ⟨hcomp, ?_, ?_⟩
          · simpa [defaultProtocolDefinition] using hnd.1
          · rw [← hfrag]
            exact hnd.2
        · intro _
          simp
      · intro d hd
        simp only [applyProtocol, hv, if_pos hnd, Option.some.injEq] at hd
        rw [← hd]
        simp [defaultProtocolDefinition]
    · constructor
      · simp only [applyProtocol, hv, if_neg hnd]
        constructor
        · intro h
          simp at h
        · rintro ⟨-, hne, hnodup⟩
          rw [← hfrag] at hnodup
          refine absurd ⟨?_, hnodup⟩ hnd
          simpa [defaultProtocolDefinition] using hne
      · intro d hd
        simp only [applyProtocol, hv, if_neg hnd] at hd
        exact absurd hd (by simp)

/-- C9 witness: the fully-default configuration validates, and its filled
fields are the documented defaults. -/
theorem claim_C9_config_validation_witness :
    (applyProtocol ⟨none, none, none, none⟩).isSome ∧
    (defaultProtocolDefinition.messageMaxLength =
        (none : Option Nat).getD 256 ∧
      defaultProtocolDefinition.endByte = (none : Option Nat).getD 192 ∧
      defaultProtocolDefinition.escapeByte = (none : Option Nat).getD 219) :=
  ⟨(claim_C9_config_validation ⟨none, none, none, none⟩).1.mpr
      (by refine ⟨by decide, by decide, by decide⟩),
   (claim_C9_config_validation ⟨none, none, none, none⟩).2
      defaultProtocolDefinition (by decide)⟩

/-- C10: starting from the fresh state, any sequence of `data` events keeps
the write cursor within the fixed 10 KiB capacity (`0 ≤ writeCursor ≤
10240` holds since the cursor is a natural number), and a terminator-free
chunk is appended truncated to the remaining capacity — the cursor advances
only by the bytes actually copied, never writing past the buffer. -/
theorem claim_C10_cursor_bound (proto : ProtocolDefinition) :
    (∀ chunks : List (List Nat),
      (feedAll proto [] chunks).1.length ≤ capacity) ∧
    (∀ buf data : List Nat, proto.endByte ∉ data →
      collectDataAndFireMessageEvent_ proto buf data =
        (buf ++ data.take (capacity - buf.length), [])) := by
  constructor
  · intro chunks
    exact feedAll_length_le proto chunks [] (by simp [capacity])
  · intro buf data hno
    rw [collect_not_found proto (bufIndexOf_eq_none.mpr hno)]
    rfl

/-- C10 witness: the cursor bound after feeding `[[1], [2, 3]]`, and the
truncating append at `buf = [1]`, `chunk = [2, 3]`. -/
theorem claim_C10_cursor_bound_witness :
    (feedAll defaultProtocolDefinition [] [[1], [2, 3]]).1.length ≤ capacity ∧
    collectDataAndFireMessageEvent_ defaultProtocolDefinition [1] [2, 3] =
      ([1] ++ ([2, 3] : List Nat).take
        (capacity - ([1] : List Nat).length), []) :=
  ⟨(claim_C10_cursor_bound defaultProtocolDefinition).1 [[1], [2, 3]],
   (claim_C10_cursor_bound defaultProtocolDefinition).2 [1] [2, 3] (by decide)⟩

end Slip
